import Mathlib

/-!
# A shallow embedding of `BuildApiMappings.py` / `BuildCSV.py`

This file models the report-rendering engine of the ApiMappingXLSX
repository: the scalar values appearing in API records, Python `dict`
lookups with their `None` defaults, the `sorted(..., key=itemgetter(k))`
call (including its `KeyError`/`TypeError` failure modes, modelled as
`Option`), the worksheet builder `ExcelFile.create_worksheet` with its
unique-name resolution and column auto-sizing, the CSV writer, the
schema validator `verify_cols_are_present`, the internal/external
partition, and the `__main__` control flow of both scripts.

Fallible Python code is embedded into `Option`: `none` models an
uncaught exception terminating the process.
-/

namespace ApiMapping

/-! ## Constants (`BuildApiMappings.py` lines 14-30) -/

def NAME : String := "Name"
def INTERNAL : String := "Internal"
def EXTERNAL : String := "External"
def IDEMPOTENT : String := "Idempotent"
def RESULT_TYPE : String := "ResultType"
def METHOD_ACCESS_CHECKED : String := "MethodAccessChecked"
def METHOD_CLASS : String := "MethodClass"
def METHOD_ACCESS : String := "MethodAccess"
def VERSION : String := "Version"
def URL : String := "URL"

/-! ## Python scalar values and records -/

/-- The JSON scalars that appear in API records: strings, booleans,
integers and `None`/null. -/
inductive Value where
  | vStr (s : String)
  | vBool (b : Bool)
  | vInt (n : Int)
  | vNone
deriving DecidableEq, Repr

/-- A Python dict record: an association list from field name to value
(first binding wins, as dict keys are unique). -/
abbrev Record := List (String × Value)

/-- `row.get(k)`: `some v` when the key is present, `none` (Python
`None`) when absent. -/
def dictGet (r : Record) (k : String) : Option Value :=
  (r.find? (fun p => p.1 == k)).map (·.2)

/-- `row.keys()` in iteration order. -/
def dictKeys (r : Record) : List String := r.map (·.1)

/-- Python `str(...)` of a scalar (`str(True) = "True"`,
`str(None) = "None"`, integers in decimal). -/
def Value.pyStr : Value → String
  | .vStr s => s
  | .vBool true => "True"
  | .vBool false => "False"
  | .vInt n => toString n
  | .vNone => "None"

/-- `str(row_data.get(column_name))`: an absent key yields Python
`None`, which stringifies to the literal `"None"`. -/
def pyStrOpt : Option Value → String
  | some v => v.pyStr
  | none => "None"

/-- Python truthiness of a scalar (`""`, `0`, `False` and `None` are
falsy). -/
def Value.truthy : Value → Bool
  | .vStr s => !(s == "")
  | .vBool b => b
  | .vInt n => !(n == 0)
  | .vNone => false

/-- Truthiness of `rows.get(INTERNAL, False)`: a missing key defaults
to `False`. -/
def truthyOpt : Option Value → Bool
  | some v => v.truthy
  | none => false

/-- Numeric view of a scalar: Python compares `bool` as the integers
0/1. -/
def Value.asNum? : Value → Option Int
  | .vBool b => some (if b then 1 else 0)
  | .vInt n => some n
  | _ => none

/-- Lexicographic code-point comparison of character lists: Python's
`str < str`. -/
def strLtb : List Char → List Char → Bool
  | [], [] => false
  | [], _ :: _ => true
  | _ :: _, [] => false
  | a :: as, b :: bs => if a < b then true else if b < a then false else strLtb as bs

/-- Python `a < b` on scalars: strings compare lexicographically by
code point, numbers (ints and bools) numerically; any other mix raises
`TypeError`, modelled as `none`. -/
def Value.lt? : Value → Value → Option Bool
  | .vStr a, .vStr b => some (strLtb a.data b.data)
  | a, b =>
    match a.asNum?, b.asNum? with
    | some x, some y => some (decide (x < y))
    | _, _ => none

/-! ## `sorted(data_list, key=operator.itemgetter(sort_key))`

Python's `sorted` precomputes the key of every element (raising
`KeyError` via `itemgetter` if a record lacks the key), then performs a
stable ascending sort whose element comparisons raise `TypeError` on
incomparable values.  The observable behaviour is modelled by a stable
insertion sort over key/record pairs in the `Option` monad. -/

/-- Stable insert: place `x` immediately before the first element `y`
with `¬ (y < x)`; a failed comparison aborts the sort. -/
def insertKeyed (x : Value × Record) : List (Value × Record) → Option (List (Value × Record))
  | [] => some [x]
  | y :: ys =>
    match Value.lt? y.1 x.1 with
    | none => none
    | some true => (insertKeyed x ys).map (y :: ·)
    | some false => some (x :: y :: ys)

/-- Stable ascending sort of key/record pairs. -/
def isortKeyed : List (Value × Record) → Option (List (Value × Record))
  | [] => some []
  | x :: xs => (isortKeyed xs).bind (insertKeyed x)

/-- `sorted(data_list, key=operator.itemgetter(sort_key))`: `none` when
`itemgetter` raises `KeyError` (a record lacks `sort_key`) or a
comparison raises `TypeError`. -/
def pySortedByKey (sort_key : String) (data_list : List Record) : Option (List Record) := do
  let keyed ← data_list.mapM (fun r => (dictGet r sort_key).map (fun v => (v, r)))
  let sortedKeyed ← isortKeyed keyed
  pure (sortedKeyed.map (·.2))

/-! ## The workbook model -/

/-- One rendered worksheet tab: its resolved name, the header row
written at row 0, the data rows tagged with their 1-based row index
(from `enumerate(..., start=1)`), and the final per-column widths set
by `set_column` (column name, width). -/
structure Sheet where
  name : String
  header : List String
  rows : List (Nat × List String)
  widths : List (String × Nat)
deriving DecidableEq, Repr

/-- The in-memory workbook of an `ExcelFile` object: the bound output
filename and the worksheets added so far. -/
structure ExcelFile where
  filename : String
  sheets : List Sheet := []
deriving DecidableEq, Repr

/-- `[wks.get_name() for wks in self._workbook.worksheets()]`. -/
def ExcelFile.worksheetNames (wb : ExcelFile) : List String := wb.sheets.map (·.name)

/-- Alignment constant `ExcelFile.LEFT`. -/
def ExcelFile.LEFT : String := "left"

/-- Alignment constant `ExcelFile.CENTER`. -/
def ExcelFile.CENTER : String := "center"

/-- Alignment constant `ExcelFile.RIGHT`. -/
def ExcelFile.RIGHT : String := "right"

/-! ## Unique worksheet names (`ExcelFile._get_unique_worksheet_name`) -/

/-- The candidate name `f"{worksheet_name}_{index}"`. -/
def candidateName (worksheet_name : String) (index : Nat) : String :=
  worksheet_name ++ "_" ++ Nat.repr index

/-- The probing loop of `_get_unique_worksheet_name`: starting at
`index`, return the first candidate `f"{worksheet_name}_{index}"` not
among the existing names.  `fuel` bounds the recursion;
`existing.length + 1` probes always reach a free candidate (the
candidates are pairwise distinct), so the fuel-exhausted branch is
unreachable at the call site below. -/
def uniqueNameAux (existing : List String) (worksheet_name : String) : Nat → Nat → String
  | _, 0 => worksheet_name
  | index, fuel + 1 =>
    if candidateName worksheet_name index ∈ existing then
      uniqueNameAux existing worksheet_name (index + 1) fuel
    else
      candidateName worksheet_name index

/-- `ExcelFile._get_unique_worksheet_name` over the list of existing
worksheet names: return `worksheet_name` unchanged when unused,
otherwise probe `worksheet_name_1`, `worksheet_name_2`, ... until an
unused name is found. -/
def get_unique_worksheet_name (existing : List String) (worksheet_name : String) : String :=
  if worksheet_name ∈ existing then
    uniqueNameAux existing worksheet_name 1 (existing.length + 1)
  else
    worksheet_name

/-! ## Column-width tracking (`column_width` dict) -/

/-- `column_width[name]` (the dict is seeded with every column by
`_build_header`, so the key is always present at use sites). -/
def lookupWidth (w : List (String × Nat)) (name : String) : Nat :=
  ((w.find? (fun p => p.1 == name)).map (·.2)).getD 0

/-- `column_width[name] = len` — update of an existing key. -/
def setWidth (w : List (String × Nat)) (name : String) (len : Nat) : List (String × Nat) :=
  w.map (fun p => if p.1 == name then (p.1, len) else p)

/-- `if len(entry) > column_width[column_name]: column_width[column_name] = len(entry)`. -/
def widthStep (w : List (String × Nat)) (name : String) (len : Nat) : List (String × Nat) :=
  if lookupWidth w name < len then setWidth w name len else w

/-- `ExcelFile._build_header`: writes each column name into row 0 (in
declared order) and seeds `column_width_dict` with each header text's
length.  The bold/background/freeze calls touch no modelled state. -/
def build_header (column_dict : List (String × String)) :
    List String × List (String × Nat) :=
  (column_dict.map (·.1), column_dict.map (fun c => (c.1, c.1.length)))

/-- `entry = str(row_data.get(column_name))` for one cell. -/
def cellStr (row_data : Record) (column_name : String) : String :=
  pyStrOpt (dictGet row_data column_name)

/-- The cell strings of one data row, one per column in declared order. -/
def rowCells (column_alignment_dict : List (String × String)) (row_data : Record) :
    List String :=
  column_alignment_dict.map (fun c => cellStr row_data c.1)

/-- The width-tracking effect of writing one data row. -/
def rowWidths (column_alignment_dict : List (String × String))
    (w : List (String × Nat)) (row_data : Record) : List (String × Nat) :=
  column_alignment_dict.foldl (fun acc c => widthStep acc c.1 (cellStr row_data c.1).length) w

/-- The width-tracking effect of writing all data rows. -/
def foldWidths (column_alignment_dict : List (String × String))
    (w : List (String × Nat)) (rows : List Record) : List (String × Nat) :=
  rows.foldl (rowWidths column_alignment_dict) w

/-- `ExcelFile.create_worksheet`: resolve a unique worksheet name
(defaulting to `self.filename` when `worksheet_name` is the empty
string), build the header row, write the records sorted by `sort_key`
at row indices 1, 2, ... and finally set each column's width to the
longest tracked entry plus the fixed `column_buffer = 7`.  `none`
models the uncaught exception from the sorting step. -/
def ExcelFile.create_worksheet (wb : ExcelFile)
    (column_alignment_dict : List (String × String)) (data_list : List Record)
    (sort_key : String := NAME) (worksheet_name : String := "") : Option ExcelFile := do
  let column_buffer := 7
  let wsname := if worksheet_name ≠ "" then worksheet_name else wb.filename
  let unique_worksheet_name := get_unique_worksheet_name wb.worksheetNames wsname
  let (header, column_width) := build_header column_alignment_dict
  let sortedData ← pySortedByKey sort_key data_list
  let rows := (sortedData.map (rowCells column_alignment_dict)).enumFrom 1
  let finalWidth := foldWidths column_alignment_dict column_width sortedData
  let widths := column_alignment_dict.map
    (fun c => (c.1, lookupWidth finalWidth c.1 + column_buffer))
  pure { wb with
    sheets := wb.sheets ++
      [{ name := unique_worksheet_name, header := header, rows := rows, widths := widths }] }

/-! ## CSV writer (`BuildCSV.write_csv_from_dict`) -/

/-- `csv.writer.writerow` cell text: Python `None` (absent key or null
value) becomes the empty string, other scalars are stringified. -/
def csvCell : Option Value → String
  | none => ""
  | some Value.vNone => ""
  | some v => v.pyStr

/-- `write_csv_from_dict`: the rows written to the CSV file, header row
first; `none` when the sorting step raises. -/
def write_csv_from_dict (ordered_column_header : List String) (data_list : List Record)
    (sort_key : String := NAME) : Option (List (List String)) := do
  let sortedData ← pySortedByKey sort_key data_list
  pure (ordered_column_header ::
    sortedData.map (fun row => ordered_column_header.map (fun col => csvCell (dictGet row col))))

/-! ## Validator and partition -/

/-- `set(expected) - set(source)` as computed by
`verify_cols_are_present`. -/
def colDiff (source expected : List String) : Finset String :=
  expected.toFinset \ source.toFinset

/-- `verify_cols_are_present`: true iff the set difference
`expected − source` is empty; on failure the printed diagnostic lists
exactly `colDiff source expected`. -/
def verify_cols_are_present (source expected : List String) : Bool :=
  decide (colDiff source expected = ∅)

/-- `api_data[EXTERNAL]`: records whose `INTERNAL` flag is not truthy
(a missing flag defaults to `False`). -/
def externalRows (raw_api_data : List Record) : List Record :=
  raw_api_data.filter (fun rows => !truthyOpt (dictGet rows INTERNAL))

/-- `api_data[INTERNAL]`: records whose `INTERNAL` flag is truthy. -/
def internalRows (raw_api_data : List Record) : List Record :=
  raw_api_data.filter (fun rows => truthyOpt (dictGet rows INTERNAL))

/-- `define_expected_columns`: the ordered column-name/alignment
pairs. -/
def define_expected_columns : List (String × String) :=
  [(NAME, ExcelFile.LEFT), (IDEMPOTENT, ExcelFile.CENTER), (RESULT_TYPE, ExcelFile.LEFT),
   (METHOD_ACCESS_CHECKED, ExcelFile.CENTER), (METHOD_CLASS, ExcelFile.LEFT),
   (INTERNAL, ExcelFile.CENTER), (METHOD_ACCESS, ExcelFile.LEFT)]

/-- The `expected_cols` list of `BuildCSV.py` (line 110). -/
def expected_cols : List String :=
  [NAME, IDEMPOTENT, RESULT_TYPE, METHOD_ACCESS_CHECKED, METHOD_CLASS, INTERNAL, METHOD_ACCESS]

/-! ## The `__main__` flows -/

/-- What one run leaves behind: output files written, worksheet tabs
created, and whether the run exited at the validation gate. -/
structure RunTrace where
  filesWritten : List String
  sheetsCreated : List String
  exitedEarly : Bool
deriving DecidableEq, Repr

/-- The `__main__` flow of `BuildApiMappings.py` from the point where
the record list and version string have been fetched: partition the
records, validate the sample record's columns (exiting with no output
on mismatch — the `ExcelFile` is only constructed after the gate), then
create the External, Internal and version worksheets and close the
workbook.  `none` models an uncaught exception (`raw_api_data[0]` on an
empty list, or a sorting failure). -/
def buildApiMappingsMain (raw_api_data : List Record) (version : String)
    (api_url : String) : Option RunTrace := do
  let column_alignment := define_expected_columns
  let api_data_external := externalRows raw_api_data
  let api_data_internal := internalRows raw_api_data
  let sample ← raw_api_data.head?
  if !verify_cols_are_present (dictKeys sample) (column_alignment.map (·.1)) then
    pure { filesWritten := [], sheetsCreated := [], exitedEarly := true }
  else do
    let cols := column_alignment.filter (fun c => c.1 ≠ INTERNAL)
    let wb0 : ExcelFile := { filename := "API_Mapping_" ++ version ++ ".xlsx", sheets := [] }
    let wb1 ← wb0.create_worksheet cols api_data_external NAME EXTERNAL
    let wb2 ← wb1.create_worksheet cols api_data_internal NAME INTERNAL
    let wb3 ← wb2.create_worksheet [(VERSION, ExcelFile.LEFT), (URL, ExcelFile.LEFT)]
      [[(VERSION, Value.vStr version), (URL, Value.vStr api_url)]] VERSION version
    pure { filesWritten := [wb3.filename], sheetsCreated := wb3.worksheetNames,
           exitedEarly := false }

/-- The `__main__` flow of `BuildCSV.py` from the fetched record list:
read the sample record's columns, partition, validate (exiting with no
output on mismatch), then write one CSV per partition. -/
def buildCSVMain (raw_api_data : List Record) : Option RunTrace := do
  let sample ← raw_api_data.head?
  let columns := dictKeys sample
  let api_data_external := externalRows raw_api_data
  let api_data_internal := internalRows raw_api_data
  if !verify_cols_are_present columns expected_cols then
    pure { filesWritten := [], sheetsCreated := [], exitedEarly := true }
  else do
    let header := expected_cols.filter (fun c => c ≠ INTERNAL)
    let _ ← write_csv_from_dict header api_data_external NAME
    let _ ← write_csv_from_dict header api_data_internal NAME
    pure { filesWritten := ["external_apis.csv", "internal_apis.csv"], sheetsCreated := [],
           exitedEarly := false }

/-! ## Vocabulary for stating ordering properties -/

/-- The sort key of a record (defaulting to `vNone`; at use sites the key is
known to be present). -/
def recordKey (sort_key : String) (r : Record) : Value :=
  (dictGet r sort_key).getD Value.vNone

/-- `r` may precede `s` in Python's ascending order: the comparison
`key s < key r` is defined and false. -/
def keyOrdered (sort_key : String) (r s : Record) : Prop :=
  Value.lt? (recordKey sort_key s) (recordKey sort_key r) = some false

/-- The same order on key/record pairs as manipulated by the sort. -/
def pairLe (a b : Value × Record) : Prop := Value.lt? b.1 a.1 = some false

/-! ## Concrete inputs used by witnesses and counterexamples -/

/-- A record whose sort-key value is a number while its neighbour's is a
string: Python raises `TypeError` comparing them. -/
def mixed_records : List Record :=
  [[("Name", Value.vInt 1)], [("Name", Value.vStr "Alpha")]]

/-- The end-to-end scenario record named `Zeta`. -/
def zeta_record : Record :=
  [("Name", Value.vStr "Zeta"), ("Internal", Value.vBool false)]

/-- The end-to-end scenario record named `Alpha`. -/
def alpha_record : Record :=
  [("Name", Value.vStr "Alpha"), ("Internal", Value.vBool false)]

/-- A sample record carrying every expected column except `MethodClass`. -/
def bad_sample : Record :=
  [("Name", Value.vStr "GetRates"), ("Idempotent", Value.vBool true),
   ("ResultType", Value.vStr "int"), ("MethodAccessChecked", Value.vBool false),
   ("Internal", Value.vBool false), ("MethodAccess", Value.vStr "All")]

/-! ## Decimal decoding (used to reason about `Nat.repr`) -/

/-- Value of a decimal digit character. -/
def digitVal (c : Char) : Nat := c.toNat - '0'.toNat

/-- Reads a decimal digit string back into a number. -/
def decodeDigits (l : List Char) : Nat := l.foldl (fun acc c => 10 * acc + digitVal c) 0

end ApiMapping

namespace ApiMapping

/-! ## `Nat.repr` round-trips through decimal decoding -/

theorem decodeDigits_append (l : List Char) (c : Char) :
    decodeDigits (l ++ [c]) = 10 * decodeDigits l + digitVal c := by
  simp [decodeDigits, List.foldl_append]

theorem digitVal_digitChar (r : Nat) (h : r < 10) : digitVal (Nat.digitChar r) = r := by
  interval_cases r <;> rfl

theorem toDigitsCore_append_eq (fuel : Nat) :
    ∀ (n : Nat) (l : List Char),
      Nat.toDigitsCore 10 fuel n l = Nat.toDigitsCore 10 fuel n [] ++ l := by
  induction fuel with
  | zero => intro n l; rfl
  | succ f ih =>
    intro n l
    simp only [Nat.toDigitsCore]
    by_cases h : n / 10 = 0
    · simp [h]
    · simp only [h, if_false]
      rw [ih (n / 10) (Nat.digitChar (n % 10) :: l), ih (n / 10) [Nat.digitChar (n % 10)]]
      simp

theorem decodeDigits_toDigitsCore (fuel : Nat) :
    ∀ n : Nat, n < fuel → decodeDigits (Nat.toDigitsCore 10 fuel n []) = n := by
  induction fuel with
  | zero => intro n h; omega
  | succ f ih =>
    intro n hn
    simp only [Nat.toDigitsCore]
    by_cases h : n / 10 = 0
    · have h10 : n < 10 := by omega
      simp only [h, if_true]
      have : decodeDigits [Nat.digitChar (n % 10)] = digitVal (Nat.digitChar (n % 10)) := by
        simp [decodeDigits]
      rw [this, digitVal_digitChar _ (Nat.mod_lt n (by norm_num))]
      omega
    · simp only [h, if_false]
      rw [toDigitsCore_append_eq, decodeDigits_append,
        ih (n / 10) (by omega), digitVal_digitChar _ (Nat.mod_lt n (by omega))]
      omega

theorem decodeDigits_repr (n : Nat) : decodeDigits (Nat.repr n).data = n := by
  have h : (Nat.repr n).data = Nat.toDigitsCore 10 (n + 1) n [] := rfl
  rw [h]
  exact decodeDigits_toDigitsCore (n + 1) n (Nat.lt_succ_self n)

theorem repr_injective : Function.Injective Nat.repr := by
  intro a b h
  have h2 := congrArg (fun s => decodeDigits s.data) h
  simpa [decodeDigits_repr] using h2

theorem candidateName_injective (base : String) :
    Function.Injective (candidateName base) := by
  intro i j h
  have hd := congrArg String.data h
  simp only [candidateName, String.data_append] at hd
  have h2 : (Nat.repr i).data = (Nat.repr j).data := List.append_cancel_left hd
  have h3 := congrArg decodeDigits h2
  simpa [decodeDigits_repr] using h3

/-! ## Correctness of the unique-name probing loop -/

theorem exists_free_candidate (existing : List String) (base : String) (index : Nat) :
    ∃ j, index ≤ j ∧ j ≤ index + existing.length ∧ candidateName base j ∉ existing := by
  by_contra hc
  push_neg at hc
  have hsub : (Finset.Icc index (index + existing.length)).image (candidateName base)
      ⊆ existing.toFinset := by
    intro s hs
    simp only [Finset.mem_image, Finset.mem_Icc] at hs
    obtain ⟨j, ⟨h1, h2⟩, rfl⟩ := hs
    exact List.mem_toFinset.mpr (hc j h1 h2)
  have hcard := Finset.card_le_card hsub
  rw [Finset.card_image_of_injective _ (candidateName_injective base), Nat.card_Icc] at hcard
  have hlen := List.toFinset_card_le existing
  omega

theorem uniqueNameAux_not_mem (existing : List String) (base : String) :
    ∀ (fuel index : Nat),
      (∃ j, index ≤ j ∧ j < index + fuel ∧ candidateName base j ∉ existing) →
      uniqueNameAux existing base index fuel ∉ existing := by
  intro fuel
  induction fuel with
  | zero =>
    intro index h
    obtain ⟨j, h1, h2, _⟩ := h
    omega
  | succ f ih =>
    intro index h
    obtain ⟨j, h1, h2, h3⟩ := h
    simp only [uniqueNameAux]
    by_cases hmem : candidateName base index ∈ existing
    · simp only [hmem, if_true]
      apply ih
      have hne : j ≠ index := fun he => h3 (he ▸ hmem)
      exact ⟨j, by omega, by omega, h3⟩
    · rw [if_neg hmem]
      exact hmem

theorem uniqueNameAux_chain (existing : List String) (base : String) (k : Nat) :
    ∀ (fuel index : Nat), index ≤ k + 1 → k + 2 - index ≤ fuel →
      (∀ i, index ≤ i → i ≤ k → candidateName base i ∈ existing) →
      candidateName base (k + 1) ∉ existing →
      uniqueNameAux existing base index fuel = candidateName base (k + 1) := by
  intro fuel
  induction fuel with
  | zero => intro index h1 h2 _ _; omega
  | succ f ih =>
    intro index h1 h2 hchain hfree
    simp only [uniqueNameAux]
    by_cases hik : index = k + 1
    · subst hik
      simp [hfree]
    · have hik' : index ≤ k := by omega
      have hm : candidateName base index ∈ existing := hchain index le_rfl hik'
      simp only [hm, if_true]
      exact ih (index + 1) (by omega) (by omega) (fun i hi1 hi2 => hchain i (by omega) hi2) hfree

theorem chain_le_length (existing : List String) (base : String) (k : Nat)
    (hchain : ∀ i ∈ Finset.Icc 1 k, candidateName base i ∈ existing) :
    k ≤ existing.length := by
  have hsub : (Finset.Icc 1 k).image (candidateName base) ⊆ existing.toFinset := by
    intro s hs
    simp only [Finset.mem_image] at hs
    obtain ⟨j, hj, rfl⟩ := hs
    exact List.mem_toFinset.mpr (hchain j hj)
  have hcard := Finset.card_le_card hsub
  rw [Finset.card_image_of_injective _ (candidateName_injective base), Nat.card_Icc] at hcard
  have hlen := List.toFinset_card_le existing
  omega

/-- C2: for every requested worksheet name `n`: if no existing worksheet is
named `n` (exact, case-sensitive string match), unique-name resolution
returns `n` unchanged; if the workbook already contains `n, n_1, ..., n_k`
(and `n_{k+1}` is still free), it returns `n_{k+1}`; and in every case the
returned name differs from every worksheet name present at call time. -/
theorem unique_worksheet_name_spec (existing : List String) (n : String) :
    (n ∉ existing → get_unique_worksheet_name existing n = n) ∧
    (∀ k : Nat, n ∈ existing →
      (∀ i ∈ Finset.Icc 1 k, candidateName n i ∈ existing) →
      candidateName n (k + 1) ∉ existing →
      get_unique_worksheet_name existing n = candidateName n (k + 1)) ∧
    get_unique_worksheet_name existing n ∉ existing := by
  refine ⟨?_, ?_, ?_⟩
  · intro h
    simp [get_unique_worksheet_name, h]
  · intro k hmem hchain hfree
    have hk := chain_le_length existing n k hchain
    simp only [get_unique_worksheet_name, hmem, if_true]
    exact uniqueNameAux_chain existing n k (existing.length + 1) 1 (by omega) (by omega)
      (fun i hi1 hi2 => hchain i (Finset.mem_Icc.mpr ⟨hi1, hi2⟩)) hfree
  · by_cases hmem : n ∈ existing
    · simp only [get_unique_worksheet_name, hmem, if_true]
      apply uniqueNameAux_not_mem
      obtain ⟨j, h1, h2, h3⟩ := exists_free_candidate existing n 1
      exact ⟨j, h1, by omega, h3⟩
    · simp [get_unique_worksheet_name, hmem]

/-- Witness for C2: a workbook holding `Internal` and `Internal_1` resolves a
request for `Internal` to `Internal_2`. -/
theorem unique_worksheet_name_spec_witness :
    get_unique_worksheet_name ["Internal", "Internal_1"] "Internal" =
      candidateName "Internal" 2 :=
  (unique_worksheet_name_spec ["Internal", "Internal_1"] "Internal").2.1 1 (by decide)
    (by decide) (by decide)

/-! ## Properties of the fallible stable sort -/

theorem strLtb_asymm : ∀ {a b : List Char}, strLtb a b = true → strLtb b a = false := by
  intro a
  induction a with
  | nil =>
    intro b h
    cases b with
    | nil => exact absurd h (by simp [strLtb])
    | cons d ds => simp [strLtb]
  | cons c cs ih =>
    intro b h
    cases b with
    | nil => exact absurd h (by simp [strLtb])
    | cons d ds =>
      simp only [strLtb] at h ⊢
      by_cases h1 : c < d
      · have h2 : ¬d < c := lt_asymm h1
        simp [h1, h2]
      · by_cases h2 : d < c
        · simp [h1, h2] at h
        · simp only [h1, h2, if_false] at h ⊢
          exact ih h

theorem lt?_asymm : ∀ {a b : Value}, Value.lt? a b = some true → Value.lt? b a = some false := by
  intro a b h
  cases a <;> cases b <;>
    simp only [Value.lt?, Value.asNum?, Option.some.injEq, decide_eq_true_eq,
      decide_eq_false_iff_not] at h ⊢ <;>
    first
      | exact strLtb_asymm h
      | omega
      | exact Option.noConfusion h

theorem insertKeyed_head {x : Value × Record} :
    ∀ {l t : List (Value × Record)}, insertKeyed x l = some t →
      t.head? = some x ∨ t.head? = l.head? := by
  intro l t h
  cases l with
  | nil =>
    simp only [insertKeyed, Option.some.injEq] at h
    subst h
    left
    rfl
  | cons y ys =>
    simp only [insertKeyed] at h
    cases hlt : Value.lt? y.1 x.1 with
    | none => rw [hlt] at h; exact absurd h (by simp)
    | some b =>
      rw [hlt] at h
      cases b with
      | true =>
        rw [Option.map_eq_some'] at h
        obtain ⟨t', _, rfl⟩ := h
        right
        rfl
      | false =>
        simp only [Option.some.injEq] at h
        subst h
        left
        rfl

theorem insertKeyed_chain {x : Value × Record} :
    ∀ {l t : List (Value × Record)}, insertKeyed x l = some t →
      l.Chain' pairLe → t.Chain' pairLe := by
  intro l
  induction l with
  | nil =>
    intro t h _
    simp only [insertKeyed, Option.some.injEq] at h
    subst h
    exact List.chain'_singleton x
  | cons y ys ih =>
    intro t h hc
    simp only [insertKeyed] at h
    cases hlt : Value.lt? y.1 x.1 with
    | none => rw [hlt] at h; exact absurd h (by simp)
    | some b =>
      rw [hlt] at h
      cases b with
      | true =>
        rw [Option.map_eq_some'] at h
        obtain ⟨t', ht', rfl⟩ := h
        rw [List.chain'_cons'] at hc ⊢
        refine ⟨?_, ih ht' hc.2⟩
        intro z hz
        rcases insertKeyed_head ht' with hh | hh
        · rw [hh] at hz
          cases hz
          exact lt?_asymm hlt
        · exact hc.1 z (by rw [← hh]; exact hz)
      | false =>
        simp only [Option.some.injEq] at h
        subst h
        rw [List.chain'_cons']
        exact ⟨fun z hz => by cases hz; exact hlt, hc⟩

theorem insertKeyed_perm {x : Value × Record} :
    ∀ {l t : List (Value × Record)}, insertKeyed x l = some t → t.Perm (x :: l) := by
  intro l
  induction l with
  | nil =>
    intro t h
    simp only [insertKeyed, Option.some.injEq] at h
    subst h
    exact List.Perm.refl _
  | cons y ys ih =>
    intro t h
    simp only [insertKeyed] at h
    cases hlt : Value.lt? y.1 x.1 with
    | none => rw [hlt] at h; exact absurd h (by simp)
    | some b =>
      rw [hlt] at h
      cases b with
      | true =>
        rw [Option.map_eq_some'] at h
        obtain ⟨t', ht', rfl⟩ := h
        exact ((ih ht').cons y).trans (List.Perm.swap x y ys)
      | false =>
        simp only [Option.some.injEq] at h
        subst h
        exact List.Perm.refl _

theorem isortKeyed_perm :
    ∀ {l t : List (Value × Record)}, isortKeyed l = some t → t.Perm l := by
  intro l
  induction l with
  | nil =>
    intro t h
    simp only [isortKeyed, Option.some.injEq] at h
    subst h
    exact List.Perm.refl _
  | cons x xs ih =>
    intro t h
    simp only [isortKeyed, Option.bind_eq_some] at h
    obtain ⟨s, hs, hins⟩ := h
    exact (insertKeyed_perm hins).trans ((ih hs).cons x)

theorem isortKeyed_chain :
    ∀ {l t : List (Value × Record)}, isortKeyed l = some t → t.Chain' pairLe := by
  intro l
  induction l with
  | nil =>
    intro t h
    simp only [isortKeyed, Option.some.injEq] at h
    subst h
    exact List.chain'_nil
  | cons x xs ih =>
    intro t h
    simp only [isortKeyed, Option.bind_eq_some] at h
    obtain ⟨s, hs, hins⟩ := h
    exact insertKeyed_chain hins (ih hs)

/-! ## Properties of `pySortedByKey` -/

theorem mapM_keyed_none {sort_key : String} :
    ∀ {data : List Record}, (∃ r ∈ data, dictGet r sort_key = none) →
      data.mapM (fun r => (dictGet r sort_key).map (fun v => (v, r))) = none := by
  intro data
  induction data with
  | nil => intro h; obtain ⟨r, hr, _⟩ := h; cases hr
  | cons r rs ih =>
    intro h
    rw [List.mapM_cons]
    obtain ⟨r', hr', hg'⟩ := h
    rcases List.mem_cons.mp hr' with rfl | hmem
    · rw [hg']
      rfl
    · cases hg : dictGet r sort_key with
      | none => rfl
      | some v =>
        simp only [hg, Option.map_some', Option.bind_eq_none', Option.some_bind]
        rw [ih ⟨r', hmem, hg'⟩]
        rfl

theorem mapM_keyed_some {sort_key : String} :
    ∀ {data : List Record} {keyed : List (Value × Record)},
      data.mapM (fun r => (dictGet r sort_key).map (fun v => (v, r))) = some keyed →
      keyed.map (·.2) = data ∧ ∀ p ∈ keyed, dictGet p.2 sort_key = some p.1 := by
  intro data
  induction data with
  | nil =>
    intro keyed h
    simp only [List.mapM_nil, Option.pure_def, Option.some.injEq] at h
    subst h
    exact ⟨rfl, by intro p hp; cases hp⟩
  | cons r rs ih =>
    intro keyed h
    rw [List.mapM_cons] at h
    cases hg : dictGet r sort_key with
    | none => rw [hg] at h; exact absurd h (by simp)
    | some v =>
      rw [hg] at h
      cases hm : rs.mapM (fun r => (dictGet r sort_key).map (fun v => (v, r))) with
      | none => rw [hm] at h; exact absurd h (by simp)
      | some ks =>
        rw [hm] at h
        injection h with h
        subst h
        obtain ⟨ih1, ih2⟩ := ih hm
        refine ⟨by simp [ih1], ?_⟩
        intro p hp
        rcases List.mem_cons.mp hp with rfl | hmem
        · exact hg
        · exact ih2 p hmem

theorem pySortedByKey_missing_key {sort_key : String} {data : List Record}
    (h : ∃ r ∈ data, dictGet r sort_key = none) :
    pySortedByKey sort_key data = none := by
  unfold pySortedByKey
  rw [mapM_keyed_none h]
  rfl

theorem pySortedByKey_eq_some {sort_key : String} {data out : List Record}
    (h : pySortedByKey sort_key data = some out) :
    ∃ keyed sortedKeyed,
      data.mapM (fun r => (dictGet r sort_key).map (fun v => (v, r))) = some keyed ∧
      isortKeyed keyed = some sortedKeyed ∧ out = sortedKeyed.map (·.2) := by
  unfold pySortedByKey at h
  cases hk : data.mapM (fun r => (dictGet r sort_key).map (fun v => (v, r))) with
  | none => rw [hk] at h; exact absurd h (by simp)
  | some keyed =>
    rw [hk] at h
    replace h : (isortKeyed keyed).bind (fun s => some (List.map (fun x => x.2) s)) = some out := h
    cases hs : isortKeyed keyed with
    | none => rw [hs] at h; exact absurd h (by simp)
    | some sortedKeyed =>
      rw [hs] at h
      injection h with h
      exact ⟨keyed, sortedKeyed, rfl, hs, h.symm⟩

theorem pySortedByKey_perm {sort_key : String} {data out : List Record}
    (h : pySortedByKey sort_key data = some out) : out.Perm data := by
  obtain ⟨keyed, sortedKeyed, hkeyed, hsort, rfl⟩ := pySortedByKey_eq_some h
  have h1 := (mapM_keyed_some hkeyed).1
  have h2 := (isortKeyed_perm hsort).map (·.2)
  rw [h1] at h2
  exact h2

theorem chain'_keyOrdered_of_pairs {sort_key : String} :
    ∀ {l : List (Value × Record)},
      (∀ p ∈ l, dictGet p.2 sort_key = some p.1) → l.Chain' pairLe →
      (l.map (·.2)).Chain' (keyOrdered sort_key) := by
  intro l
  induction l with
  | nil => intro _ _; exact List.chain'_nil
  | cons p l ih =>
    intro hkeys hc
    rw [List.chain'_cons'] at hc
    rw [List.map_cons, List.chain'_cons']
    refine ⟨?_, ih (fun q hq => hkeys q (List.mem_cons_of_mem p hq)) hc.2⟩
    intro z hz
    cases l with
    | nil => cases hz
    | cons q l' =>
      simp only [List.map_cons, List.head?_cons] at hz
      cases hz
      have hle := hc.1 q rfl
      have hkp : recordKey sort_key p.2 = p.1 := by
        simp [recordKey, hkeys p (List.mem_cons_self p _)]
      have hkq : recordKey sort_key q.2 = q.1 := by
        simp [recordKey, hkeys q (List.mem_cons_of_mem p (List.mem_cons_self q l'))]
      simp only [keyOrdered, hkp, hkq]
      exact hle

theorem pySortedByKey_sorted {sort_key : String} {data out : List Record}
    (h : pySortedByKey sort_key data = some out) : out.Chain' (keyOrdered sort_key) := by
  obtain ⟨keyed, sortedKeyed, hkeyed, hsort, rfl⟩ := pySortedByKey_eq_some h
  have h2 := (mapM_keyed_some hkeyed).2
  have hkeys : ∀ p ∈ sortedKeyed, dictGet p.2 sort_key = some p.1 := by
    intro p hp
    exact h2 p ((isortKeyed_perm hsort).mem_iff.mp hp)
  exact chain'_keyOrdered_of_pairs hkeys (isortKeyed_chain hsort)

/-! ## Shape of a successful `create_worksheet` call -/

theorem create_worksheet_eq_bind (wb : ExcelFile) (cols : List (String × String))
    (data : List Record) (sort_key ws : String) :
    wb.create_worksheet cols data sort_key ws =
      (pySortedByKey sort_key data).bind (fun sortedData =>
        some { wb with sheets := wb.sheets ++ [{
          name := get_unique_worksheet_name wb.worksheetNames
            (if ws ≠ "" then ws else wb.filename),
          header := cols.map (·.1),
          rows := (sortedData.map (rowCells cols)).enumFrom 1,
          widths := cols.map (fun c =>
            (c.1, lookupWidth
              (foldWidths cols (cols.map (fun d => (d.1, d.1.length))) sortedData) c.1 + 7)) }] }) :=
  rfl

theorem create_worksheet_none {sort_key : String} {data : List Record}
    (wb : ExcelFile) (cols : List (String × String)) (ws : String)
    (h : pySortedByKey sort_key data = none) :
    wb.create_worksheet cols data sort_key ws = none := by
  rw [create_worksheet_eq_bind, h]
  rfl

theorem create_worksheet_eq_some {wb : ExcelFile} {cols : List (String × String)}
    {data : List Record} {sort_key ws : String} {wb' : ExcelFile}
    (h : wb.create_worksheet cols data sort_key ws = some wb') :
    ∃ sortedData, pySortedByKey sort_key data = some sortedData ∧
      wb' = { wb with sheets := wb.sheets ++ [{
        name := get_unique_worksheet_name wb.worksheetNames
          (if ws ≠ "" then ws else wb.filename),
        header := cols.map (·.1),
        rows := (sortedData.map (rowCells cols)).enumFrom 1,
        widths := cols.map (fun c =>
          (c.1, lookupWidth
            (foldWidths cols (cols.map (fun d => (d.1, d.1.length))) sortedData) c.1 + 7)) }] } := by
  rw [create_worksheet_eq_bind] at h
  cases hs : pySortedByKey sort_key data with
  | none => rw [hs] at h; exact absurd h (by simp)
  | some s =>
    rw [hs] at h
    injection h with h
    exact ⟨s, rfl, h.symm⟩

theorem write_csv_from_dict_none {sort_key : String} {data : List Record}
    (header : List String) (h : pySortedByKey sort_key data = none) :
    write_csv_from_dict header data sort_key = none := by
  unfold write_csv_from_dict
  rw [h]
  rfl

/-- C3 (amended): on every record list in which some record lacks the
`sort_key` field, the sorting step of `create_worksheet` and of the CSV
writer raises `KeyError` (via `operator.itemgetter`): the program crashes
instead of assigning such records a sort treatment. -/
theorem sorting_missing_key_crashes (sort_key : String) (data : List Record)
    (h : ∃ r ∈ data, dictGet r sort_key = none) :
    pySortedByKey sort_key data = none ∧
    (∀ (wb : ExcelFile) (cols : List (String × String)) (ws : String),
      wb.create_worksheet cols data sort_key ws = none) ∧
    (∀ header : List String, write_csv_from_dict header data sort_key = none) := by
  have hs := pySortedByKey_missing_key h
  exact ⟨hs, fun wb cols ws => create_worksheet_none wb cols ws hs,
    fun header => write_csv_from_dict_none header hs⟩

/-- C3 counterexample: a record list whose single record lacks the `Name`
sort key makes the sorting step raise: `create_worksheet` and the CSV writer
crash (`none`), refuting the claim that sorting is total and does not
crash. -/
theorem sorting_missing_key_counterexample :
    pySortedByKey NAME [[(INTERNAL, Value.vBool false)]] = none ∧
    ExcelFile.create_worksheet ⟨"API_Mapping_1.2.3.4.xlsx", []⟩ define_expected_columns
      [[(INTERNAL, Value.vBool false)]] NAME "External" = none ∧
    write_csv_from_dict [NAME] [[(INTERNAL, Value.vBool false)]] NAME = none :=
  ⟨rfl, rfl, rfl⟩

/-- Witness for C3 (amended), at a concrete one-record list missing the sort
key. -/
theorem sorting_missing_key_crashes_witness :
    pySortedByKey "Name" [[("MethodClass", Value.vStr "C")]] = none ∧
    ExcelFile.create_worksheet ⟨"demo.xlsx", []⟩ [("Name", "left")]
      [[("MethodClass", Value.vStr "C")]] "Name" "Internal" = none ∧
    write_csv_from_dict ["Name"] [[("MethodClass", Value.vStr "C")]] "Name" = none := by
  have h := sorting_missing_key_crashes "Name" [[("MethodClass", Value.vStr "C")]]
    ⟨[("MethodClass", Value.vStr "C")], by decide, by decide⟩
  exact ⟨h.1, h.2.1 _ _ _, h.2.2 _⟩

/-- C4 counterexample: both records carry the `Name` sort key, yet
`create_worksheet` crashes (Python raises `TypeError` comparing the integer
key `1` with the string key `"Alpha"`), so no rows are written at row 1, 2,
... at all — the claim fails as stated for this record list. -/
theorem create_worksheet_mixed_keys_counterexample :
    mixed_records.all (fun r => (dictGet r NAME).isSome) = true ∧
    ExcelFile.create_worksheet ⟨"API_Mapping_1.2.3.4.xlsx", []⟩ [("Name", "left")]
      mixed_records NAME "External" = none :=
  ⟨rfl, rfl⟩

/-- C4 (amended): for every record list in which every record has the
`sort_key` field and the sort succeeds (the key values are mutually
comparable), `create_worksheet` writes the data rows at consecutive row
indices 1, 2, ..., n in ascending order of the sort-key value. -/
theorem create_worksheet_rows_sorted (wb : ExcelFile) (cols : List (String × String))
    (data : List Record) (sort_key ws : String) (wb' : ExcelFile)
    (hkeys : ∀ r ∈ data, (dictGet r sort_key).isSome = true)
    (h : wb.create_worksheet cols data sort_key ws = some wb') :
    ∃ sortedData, pySortedByKey sort_key data = some sortedData ∧
      sortedData.Perm data ∧
      sortedData.Chain' (keyOrdered sort_key) ∧
      ∃ sh, wb'.sheets = wb.sheets ++ [sh] ∧
        sh.rows = (sortedData.map (rowCells cols)).enumFrom 1 ∧
        sh.rows.map Prod.fst = List.range' 1 data.length := by
  obtain ⟨sortedData, hs, rfl⟩ := create_worksheet_eq_some h
  refine ⟨sortedData, hs, pySortedByKey_perm hs, pySortedByKey_sorted hs, _, rfl, rfl, ?_⟩
  rw [List.enumFrom_map_fst, List.length_map, (pySortedByKey_perm hs).length_eq]

/-- Witness for C4 (amended): the `Zeta`/`Alpha` end-to-end scenario — the
row for `Alpha` is written at row 1, the row for `Zeta` at row 2. -/
theorem create_worksheet_rows_sorted_witness :
    ∃ sortedData, pySortedByKey NAME [zeta_record, alpha_record] = some sortedData ∧
      sortedData.Perm [zeta_record, alpha_record] ∧
      sortedData.Chain' (keyOrdered NAME) ∧
      ∃ sh, (ExcelFile.mk "demo.xlsx"
          [⟨"External", ["Name"], [(1, ["Alpha"]), (2, ["Zeta"])], [("Name", 12)]⟩]).sheets =
        ([] : List Sheet) ++ [sh] ∧
        sh.rows = (sortedData.map (rowCells [("Name", "left")])).enumFrom 1 ∧
        sh.rows.map Prod.fst = List.range' 1 [zeta_record, alpha_record].length :=
  create_worksheet_rows_sorted ⟨"demo.xlsx", []⟩ [("Name", "left")]
    [zeta_record, alpha_record] NAME "External"
    (ExcelFile.mk "demo.xlsx"
      [⟨"External", ["Name"], [(1, ["Alpha"]), (2, ["Zeta"])], [("Name", 12)]⟩])
    (by decide) rfl

/-! ## Column-width bookkeeping -/

theorem lookup_setWidth_ne {c n : String} (h : c ≠ n) :
    ∀ (w : List (String × Nat)) (len : Nat), lookupWidth (setWidth w n len) c = lookupWidth w c := by
  intro w len
  induction w with
  | nil => rfl
  | cons p ps ih =>
    have hcons : setWidth (p :: ps) n len =
        (if (p.1 : String) == n then (p.1, len) else p) :: setWidth ps n len := rfl
    rw [hcons]
    by_cases hpc : p.1 = c
    · have hn : ¬(p.1 = n) := by rw [hpc]; exact h
      rw [if_neg (by simpa using hn)]
      unfold lookupWidth
      rw [List.find?_cons_of_pos _ (by simpa using hpc),
        List.find?_cons_of_pos _ (by simpa using hpc)]
    · unfold lookupWidth
      by_cases hn : ((p.1 : String) == n) = true
      · rw [if_pos hn, List.find?_cons_of_neg _ (by simpa using hpc),
          List.find?_cons_of_neg _ (by simpa using hpc)]
        exact ih
      · rw [if_neg hn, List.find?_cons_of_neg _ (by simpa using hpc),
          List.find?_cons_of_neg _ (by simpa using hpc)]
        exact ih

theorem lookup_setWidth_self {c : String} :
    ∀ {w : List (String × Nat)}, (∃ p ∈ w, p.1 = c) →
      ∀ len : Nat, lookupWidth (setWidth w c len) c = len := by
  intro w
  induction w with
  | nil =>
    intro h
    obtain ⟨p, hp, _⟩ := h
    cases hp
  | cons p ps ih =>
    intro h len
    by_cases hpc : p.1 = c
    · simp only [setWidth, List.map_cons, show ((p.1 : String) == c) = true by simpa using hpc,
        if_true]
      unfold lookupWidth
      rw [List.find?_cons_of_pos _ (by simpa using hpc)]
      rfl
    · simp only [setWidth, List.map_cons, show ((p.1 : String) == c) = false by simpa using hpc,
        Bool.false_eq_true, if_false]
      unfold lookupWidth
      rw [List.find?_cons_of_neg _ (by simpa using hpc)]
      obtain ⟨q, hq, hqc⟩ := h
      rcases List.mem_cons.mp hq with rfl | hmem
      · exact absurd hqc hpc
      · exact ih ⟨q, hmem, hqc⟩ len

theorem exists_key_setWidth {c n : String} {w : List (String × Nat)} {len : Nat}
    (h : ∃ p ∈ w, p.1 = c) : ∃ p ∈ setWidth w n len, p.1 = c := by
  obtain ⟨p, hp, hpc⟩ := h
  refine ⟨if (p.1 : String) == n then (p.1, len) else p, List.mem_map_of_mem _ hp, ?_⟩
  by_cases hn : ((p.1 : String) == n) = true
  · rw [if_pos hn]
    exact hpc
  · rw [if_neg hn]
    exact hpc

theorem exists_key_widthStep {c n : String} {w : List (String × Nat)} {len : Nat}
    (h : ∃ p ∈ w, p.1 = c) : ∃ p ∈ widthStep w n len, p.1 = c := by
  unfold widthStep
  by_cases hlt : lookupWidth w n < len
  · simp only [hlt, if_true]
    exact exists_key_setWidth h
  · simp only [hlt, if_false]
    exact h

theorem lookup_widthStep_self {c : String} {w : List (String × Nat)} {len : Nat}
    (h : ∃ p ∈ w, p.1 = c) :
    lookupWidth (widthStep w c len) c = Nat.max (lookupWidth w c) len := by
  unfold widthStep
  by_cases hlt : lookupWidth w c < len
  · simp only [hlt, if_true]
    rw [lookup_setWidth_self h len]
    exact (Nat.max_eq_right (Nat.le_of_lt hlt)).symm
  · simp only [hlt, if_false]
    exact (Nat.max_eq_left (Nat.le_of_not_lt hlt)).symm

theorem lookup_widthStep_ne {c n : String} (hne : c ≠ n) (w : List (String × Nat)) (len : Nat) :
    lookupWidth (widthStep w n len) c = lookupWidth w c := by
  unfold widthStep
  by_cases hlt : lookupWidth w n < len
  · simp only [hlt, if_true]
    exact lookup_setWidth_ne hne w len
  · simp only [hlt, if_false]

theorem exists_key_rowWidths {c : String} (r : Record) :
    ∀ (cols : List (String × String)) (w : List (String × Nat)),
      (∃ p ∈ w, p.1 = c) → ∃ p ∈ rowWidths cols w r, p.1 = c := by
  intro cols
  induction cols with
  | nil => intro w h; exact h
  | cons d ds ih =>
    intro w h
    exact ih _ (exists_key_widthStep h)

theorem lookup_rowWidths {c : String} (r : Record) :
    ∀ (cols : List (String × String)) (w : List (String × Nat)),
      (∃ p ∈ w, p.1 = c) →
      lookupWidth (rowWidths cols w r) c =
        if c ∈ cols.map Prod.fst then Nat.max (lookupWidth w c) (cellStr r c).length
        else lookupWidth w c := by
  intro cols
  induction cols with
  | nil =>
    intro w h
    simp [rowWidths]
  | cons d ds ih =>
    intro w h
    have hstep : rowWidths (d :: ds) w r =
        rowWidths ds (widthStep w d.1 (cellStr r d.1).length) r := rfl
    rw [hstep, ih _ (exists_key_widthStep h)]
    by_cases hdc : c = d.1
    · subst hdc
      rw [lookup_widthStep_self h, if_pos (show d.1 ∈ (d :: ds).map Prod.fst by simp)]
      by_cases hin : d.1 ∈ ds.map Prod.fst
      · rw [if_pos hin]
        exact (Nat.max_assoc _ _ _).trans (congrArg (Nat.max _) (Nat.max_self _))
      · rw [if_neg hin]
    · rw [lookup_widthStep_ne hdc]
      have hiff : (c ∈ (d :: ds).map Prod.fst) ↔ (c ∈ ds.map Prod.fst) := by
        simp [List.mem_cons, hdc]
      by_cases hin : c ∈ ds.map Prod.fst
      · rw [if_pos hin, if_pos (hiff.mpr hin)]
      · rw [if_neg hin, if_neg (fun hmm => hin (hiff.mp hmm))]

theorem lookup_foldWidths {c : String} (cols : List (String × String))
    (hc : c ∈ cols.map Prod.fst) :
    ∀ (rows : List Record) (w : List (String × Nat)), (∃ p ∈ w, p.1 = c) →
      lookupWidth (foldWidths cols w rows) c =
        rows.foldl (fun a r => Nat.max a (cellStr r c).length) (lookupWidth w c) := by
  intro rows
  induction rows with
  | nil => intro w _; rfl
  | cons r rs ih =>
    intro w h
    have hstep : foldWidths cols w (r :: rs) = foldWidths cols (rowWidths cols w r) rs := rfl
    rw [hstep, ih _ (exists_key_rowWidths r cols w h), lookup_rowWidths r cols w h]
    simp only [hc, if_true, List.foldl_cons]

theorem lookup_seed (cols : List (String × String)) (c : String)
    (hc : c ∈ cols.map Prod.fst) :
    lookupWidth (cols.map (fun d => (d.1, d.1.length))) c = c.length := by
  induction cols with
  | nil => cases hc
  | cons d ds ih =>
    by_cases hdc : d.1 = c
    · unfold lookupWidth
      rw [List.map_cons, List.find?_cons_of_pos _ (by simpa using hdc)]
      simp [hdc]
    · unfold lookupWidth
      rw [List.map_cons, List.find?_cons_of_neg _ (by simpa using hdc)]
      rw [List.map_cons] at hc
      rcases List.mem_cons.mp hc with h | h
      · exact absurd h.symm hdc
      · exact ih h

theorem exists_key_seed {c : String} {cols : List (String × String)}
    (hc : c ∈ cols.map Prod.fst) :
    ∃ p ∈ cols.map (fun d => (d.1, d.1.length)), p.1 = c := by
  obtain ⟨d, hd, rfl⟩ := List.mem_map.mp hc
  exact ⟨(d.1, d.1.length), List.mem_map_of_mem _ hd, rfl⟩

theorem foldl_max_perm : ∀ {l₁ l₂ : List Nat}, l₁.Perm l₂ →
    ∀ a : Nat, l₁.foldl Nat.max a = l₂.foldl Nat.max a := by
  intro l₁ l₂ h
  induction h with
  | nil => intro a; rfl
  | cons x _ ih => intro a; exact ih (Nat.max a x)
  | swap x y l =>
    intro a
    simp only [List.foldl_cons]
    have hmax : Nat.max (Nat.max a y) x = Nat.max (Nat.max a x) y := Nat.max_right_comm a y x
    rw [hmax]
  | trans _ _ ih₁ ih₂ => intro a; exact (ih₁ a).trans (ih₂ a)

/-- C1: for every column specification and record list accepted by
`create_worksheet` (the call returns successfully), the final width of every
column equals the maximum over the column's header-text length and the
lengths of the stringified cell values written in that column, plus the
fixed buffer constant 7. -/
theorem create_worksheet_column_widths (wb : ExcelFile) (cols : List (String × String))
    (data : List Record) (sort_key ws : String) (wb' : ExcelFile)
    (h : wb.create_worksheet cols data sort_key ws = some wb') :
    ∃ sh, wb'.sheets = wb.sheets ++ [sh] ∧
      sh.widths = cols.map (fun c =>
        (c.1, (data.map (fun r => (cellStr r c.1).length)).foldl Nat.max c.1.length + 7)) := by
  obtain ⟨sortedData, hs, rfl⟩ := create_worksheet_eq_some h
  refine ⟨_, rfl, ?_⟩
  apply List.map_congr_left
  intro c hc
  have hmem : c.1 ∈ cols.map Prod.fst := List.mem_map_of_mem _ hc
  rw [lookup_foldWidths cols hmem sortedData _ (exists_key_seed hmem), lookup_seed cols c.1 hmem]
  have hfold : sortedData.foldl (fun a r => Nat.max a (cellStr r c.1).length) c.1.length =
      (sortedData.map (fun r => (cellStr r c.1).length)).foldl Nat.max c.1.length := by
    rw [List.foldl_map]
  rw [hfold, foldl_max_perm ((pySortedByKey_perm hs).map _) c.1.length]

/-- Witness for C1: one record named `Alpha` under columns `Name` and
`MethodClass` — widths are `max(4, 5) + 7 = 12` and `max(11, 4) + 7 = 18`
(the missing `MethodClass` cell renders as `"None"`). -/
theorem create_worksheet_column_widths_witness :
    ∃ sh, (ExcelFile.mk "w.xlsx"
        [⟨"Internal", ["Name", "MethodClass"], [(1, ["Alpha", "None"])],
          [("Name", 12), ("MethodClass", 18)]⟩]).sheets = ([] : List Sheet) ++ [sh] ∧
      sh.widths = [("Name", ExcelFile.LEFT), ("MethodClass", ExcelFile.LEFT)].map (fun c =>
        (c.1, ([alpha_record].map (fun r => (cellStr r c.1).length)).foldl Nat.max c.1.length + 7)) :=
  create_worksheet_column_widths ⟨"w.xlsx", []⟩
    [("Name", ExcelFile.LEFT), ("MethodClass", ExcelFile.LEFT)] [alpha_record] NAME "Internal"
    (ExcelFile.mk "w.xlsx"
      [⟨"Internal", ["Name", "MethodClass"], [(1, ["Alpha", "None"])],
        [("Name", 12), ("MethodClass", 18)]⟩])
    rfl

/-- C10: `create_worksheet` on an empty record list succeeds and produces a
worksheet holding only the formatted header row, each column's width being
its header-text length plus 7. -/
theorem create_worksheet_empty_records (wb : ExcelFile) (cols : List (String × String))
    (sort_key ws : String) :
    wb.create_worksheet cols [] sort_key ws =
      some { wb with sheets := wb.sheets ++ [{
        name := get_unique_worksheet_name wb.worksheetNames
          (if ws ≠ "" then ws else wb.filename),
        header := cols.map (·.1),
        rows := [],
        widths := cols.map (fun c => (c.1, c.1.length + 7)) }] } := by
  have hw : cols.map (fun c =>
      (c.1, lookupWidth (foldWidths cols (cols.map (fun d => (d.1, d.1.length))) []) c.1 + 7))
      = cols.map (fun c => (c.1, c.1.length + 7)) := by
    apply List.map_congr_left
    intro c hc
    have hmem : c.1 ∈ cols.map Prod.fst := List.mem_map_of_mem _ hc
    have hfold : foldWidths cols (cols.map (fun d => (d.1, d.1.length))) [] =
        cols.map (fun d => (d.1, d.1.length)) := rfl
    rw [hfold, lookup_seed cols c.1 hmem]
  rw [create_worksheet_eq_bind,
    show pySortedByKey sort_key ([] : List Record) = some [] from rfl, Option.some_bind, hw]
  rfl

/-! ## Validator, partition, cell rendering, default worksheet name -/

/-- C5: `verify_cols_are_present` returns true iff the set difference
`expected − source` is empty, i.e. iff every expected column occurs in the
source list (extra fields in `source` are never flagged), and the diagnostic
set `colDiff` printed on failure contains exactly the expected-but-missing
columns. -/
theorem verify_cols_spec (source expected : List String) :
    (verify_cols_are_present source expected = true ↔ ∀ c ∈ expected, c ∈ source) ∧
    (∀ c : String, c ∈ colDiff source expected ↔ (c ∈ expected ∧ c ∉ source)) := by
  constructor
  · simp only [verify_cols_are_present, colDiff, decide_eq_true_eq,
      Finset.sdiff_eq_empty_iff_subset, Finset.subset_iff, List.mem_toFinset]
  · intro c
    simp [colDiff, Finset.mem_sdiff, List.mem_toFinset]

theorem verify_cols_false_of_missing {source expected : List String}
    (hmiss : ∃ c ∈ expected, c ∉ source) :
    verify_cols_are_present source expected = false := by
  obtain ⟨c, hc, hnc⟩ := hmiss
  unfold verify_cols_are_present
  rw [decide_eq_false_iff_not]
  intro hempty
  have hmem : c ∈ colDiff source expected := by
    simp [colDiff, Finset.mem_sdiff, List.mem_toFinset, hc, hnc]
  rw [hempty] at hmem
  exact Finset.not_mem_empty c hmem

/-- C6: on every input record list whose sample (first) record misses at
least one expected column, both `__main__` flows stop at the validation
gate: the run exits early, writes no output file and creates no
worksheet. -/
theorem validation_failure_no_artifacts (sample : Record) (rest : List Record)
    (version api_url : String)
    (hmiss : ∃ c ∈ expected_cols, c ∉ dictKeys sample) :
    buildApiMappingsMain (sample :: rest) version api_url =
      some { filesWritten := [], sheetsCreated := [], exitedEarly := true } ∧
    buildCSVMain (sample :: rest) =
      some { filesWritten := [], sheetsCreated := [], exitedEarly := true } := by
  have hver : verify_cols_are_present (dictKeys sample) expected_cols = false :=
    verify_cols_false_of_missing hmiss
  have hverX : verify_cols_are_present (dictKeys sample)
      (define_expected_columns.map (fun c => c.1)) = false := by
    rw [show define_expected_columns.map (fun c => c.1) = expected_cols from rfl]
    exact hver
  constructor
  · simp [buildApiMappingsMain, hverX]
  · simp [buildCSVMain, hver]

/-- Witness for C6: a record set missing `MethodClass` exits at validation
with zero artifacts in both flows. -/
theorem validation_failure_no_artifacts_witness :
    buildApiMappingsMain [bad_sample] "1.2.3.4"
        "https://price.pclender.com/nexbank/method_list" =
      some { filesWritten := [], sheetsCreated := [], exitedEarly := true } ∧
    buildCSVMain [bad_sample] =
      some { filesWritten := [], sheetsCreated := [], exitedEarly := true } :=
  validation_failure_no_artifacts bad_sample [] "1.2.3.4"
    "https://price.pclender.com/nexbank/method_list" (by decide)

/-- C7: partitioning by the `Internal` flag is total, exhaustive and stable:
the group sizes sum to the input size; a record lands in the internal group
iff its flag is truthy (a missing flag counts as false) and in the external
group iff not; each group is a subsequence of the input (original relative
order, nothing invented); and external ++ internal is a permutation of the
input (no record dropped or duplicated). -/
theorem partition_total_exhaustive_stable (raw_api_data : List Record) :
    (externalRows raw_api_data).length + (internalRows raw_api_data).length
        = raw_api_data.length ∧
    (∀ r : Record, r ∈ internalRows raw_api_data ↔
      r ∈ raw_api_data ∧ truthyOpt (dictGet r INTERNAL) = true) ∧
    (∀ r : Record, r ∈ externalRows raw_api_data ↔
      r ∈ raw_api_data ∧ truthyOpt (dictGet r INTERNAL) = false) ∧
    (externalRows raw_api_data).Sublist raw_api_data ∧
    (internalRows raw_api_data).Sublist raw_api_data ∧
    (externalRows raw_api_data ++ internalRows raw_api_data).Perm raw_api_data := by
  have hperm : (externalRows raw_api_data ++ internalRows raw_api_data).Perm raw_api_data := by
    unfold externalRows internalRows
    have hfp := List.filter_append_perm
      (fun rows => !truthyOpt (dictGet rows INTERNAL)) raw_api_data
    simpa [Bool.not_not] using hfp
  refine ⟨?_, ?_, ?_, List.filter_sublist _, List.filter_sublist _, hperm⟩
  · have hlen := hperm.length_eq
    simpa [List.length_append] using hlen
  · intro r
    simp [internalRows, List.mem_filter]
  · intro r
    simp [externalRows, List.mem_filter]

/-- C8: cell rendering never fails: a column key absent from the record (or
mapped to null) renders as the literal string `"None"`, and every present
value is stringified with Python `str` before being written. -/
theorem cell_rendering_total (row_data : Record) (column_name : String) :
    ((dictGet row_data column_name = none ∨ dictGet row_data column_name = some Value.vNone) →
      cellStr row_data column_name = "None") ∧
    (∀ v : Value, dictGet row_data column_name = some v →
      cellStr row_data column_name = Value.pyStr v) := by
  constructor
  · intro h
    rcases h with h | h <;> simp [cellStr, h, pyStrOpt, Value.pyStr]
  · intro v hv
    simp [cellStr, hv, pyStrOpt]

/-- Witness for C8: `alpha_record` lacks `MethodClass`, whose cell renders
as `"None"`, while its present `Name` value is stringified. -/
theorem cell_rendering_total_witness :
    cellStr alpha_record "MethodClass" = "None" ∧ cellStr alpha_record "Name" = "Alpha" :=
  ⟨(cell_rendering_total alpha_record "MethodClass").1 (Or.inl rfl),
   (cell_rendering_total alpha_record "Name").2 (Value.vStr "Alpha") rfl⟩

/-- C9 counterexample: a builder bound to `report.xlsx` whose
`create_worksheet` is called with the empty-string default names the tab
`report.xlsx` — the full bound filename, not the filename stem `report`
claimed by the spec. -/
theorem default_name_counterexample :
    (ExcelFile.create_worksheet ⟨"report.xlsx", []⟩ [("Version", ExcelFile.LEFT)] [] NAME
        "").map (fun wb => wb.sheets.map Sheet.name) = some ["report.xlsx"] ∧
    "report.xlsx" ≠ "report" :=
  ⟨rfl, by decide⟩

/-- C9 (amended): calling `create_worksheet` without a worksheet name (the
empty-string default) names the new worksheet after the bound filename
itself, extension included (stated here for a filename not already in use as
a tab name, where no uniquification suffix is added). -/
theorem default_worksheet_name_is_filename (wb : ExcelFile) (cols : List (String × String))
    (data : List Record) (sort_key : String) (wb' : ExcelFile)
    (hfree : wb.filename ∉ wb.worksheetNames)
    (h : wb.create_worksheet cols data sort_key "" = some wb') :
    ∃ sh, wb'.sheets = wb.sheets ++ [sh] ∧ sh.name = wb.filename := by
  obtain ⟨sortedData, hs, rfl⟩ := create_worksheet_eq_some h
  refine ⟨_, rfl, ?_⟩
  show get_unique_worksheet_name wb.worksheetNames
    (if ("" : String) ≠ "" then "" else wb.filename) = wb.filename
  rw [if_neg (by simp)]
  simp [get_unique_worksheet_name, hfree]

/-- Witness for C9 (amended): the `report.xlsx` builder again — the created
tab is named after the bound filename. -/
theorem default_worksheet_name_is_filename_witness :
    ∃ sh, (ExcelFile.mk "report.xlsx"
        [⟨"report.xlsx", ["Version"], [], [("Version", 14)]⟩]).sheets =
          ([] : List Sheet) ++ [sh] ∧
      sh.name = (ExcelFile.mk "report.xlsx" ([] : List Sheet)).filename :=
  default_worksheet_name_is_filename ⟨"report.xlsx", []⟩ [("Version", ExcelFile.LEFT)] [] NAME
    (ExcelFile.mk "report.xlsx" [⟨"report.xlsx", ["Version"], [], [("Version", 14)]⟩])
    (by decide) rfl

end ApiMapping
